import Mathlib

/-!
# go-bunkatsu: the split downloader, embedded in Lean

Shallow embedding of `downloader.go`.  Machine integers (`int`, `int64`) are
modelled as `Int` with explicit two's-complement wrap-around at 64 bits; the
file system, the network and the scheduler are explicit arguments.
-/

set_option autoImplicit false

namespace Bunkatsu

/-! ## Machine integers -/

/-- Wrap-around of a mathematical integer into the `int64` range. -/
def wrapInt64 (x : Int) : Int := (x + 2 ^ 63) % 2 ^ 64 - 2 ^ 63

/-- Membership in the `int64` range (also the range of `int` on 64-bit targets). -/
def isInt64 (x : Int) : Prop := -(2 ^ 63) ≤ x ∧ x < 2 ^ 63

instance (x : Int) : Decidable (isInt64 x) := by
  unfold isInt64; exact inferInstance

/-- Go `a / b` on `int64`: truncated quotient, wrapped; `none` is the run-time
panic "integer divide by zero". -/
def int64Div (a b : Int) : Option Int :=
  if b = 0 then none else some (wrapInt64 (Int.tdiv a b))

/-! ## Data model -/

/-- The Go error values the program can return. -/
inductive Error where
  | errTooFewArgument
  | errContentLength
  | errAcceptRanges
  | errInterrupt
  | deadlineExceeded
  | canceled
  | os (msg : String)
  | net (msg : String)
  deriving DecidableEq, Repr

/-- The Go struct `process`. -/
structure process where
  index : Int
  filePath : String
  startByte : Int
  endByte : Int
  deriving DecidableEq, Repr

/-- The Go struct `Downloader`; `processList` is a pointer, `none` is nil. -/
structure Downloader where
  url : String
  name : String
  tmpDir : String
  contentLength : Int
  timeout : Int
  division : Int
  processList : Option (List process)
  deriving DecidableEq, Repr

/-- The constant `timeout`. -/
def timeout : Int := 10

/-- The constant `division`. -/
def division : Int := 5

/-- The zero value `Downloader{}`. -/
def Downloader.zero : Downloader :=
  { url := "", name := "", tmpDir := "", contentLength := 0, timeout := 0,
    division := 0, processList := none }

/-- Model of `filepath.Join(dir, elem)` for a non-empty `dir` and a single
path element: the two joined by the separator (path cleaning left out). -/
def filepathJoin (dir elem : String) : String := dir ++ "/" ++ elem

/-- Model of `fmt.Sprintf("%d_%s", i, name)`. -/
def sprintfIndexName (i : Int) (name : String) : String :=
  toString i ++ "_" ++ name

/-! ## createProcessList -/

/-- Body of the `for` loop of `createProcessList` at loop counter `i`. -/
def Downloader.createProcessList.body (d : Downloader) (rangeSize : Int) (i : Int) : process :=
  let startByte := wrapInt64 (rangeSize * i)
  let endByte := wrapInt64 (wrapInt64 (startByte + rangeSize) - 1)
  let endByte := if i = wrapInt64 (d.division - 1) then d.contentLength else endByte
  { index := i
    filePath := filepathJoin d.tmpDir (sprintfIndexName i d.name)
    startByte := startByte
    endByte := endByte }

/-- The loop `for i := 0; i < d.division; i++ { ... append ... }`. -/
def Downloader.createProcessList.loop (d : Downloader) (rangeSize : Int) : List process :=
  (List.range d.division.toNat).foldl
    (fun (processList : List process) (i : Nat) =>
      processList ++ [Downloader.createProcessList.body d rangeSize (i : Int)]) []

/-- Method `(*Downloader).createProcessList`: the updated receiver and the returned
error; `none` is the run-time panic of the division by zero. -/
def Downloader.createProcessList (d : Downloader) : Option (Downloader × Option Error) :=
  match int64Div d.contentLength d.division with
  | none => none
  | some rangeSize =>
    let processList := Downloader.createProcessList.loop d rangeSize
    some ({ d with processList := some processList }, none)

/-! ## The environment: file system, network, scheduler -/

/-- File contents. -/
abbrev Bytes := List (Fin 256)

/-- The file system: the content of each regular file, by path. -/
abbrev FS := String → Option Bytes

/-- Replace the content of the file at `path`. -/
def fsWrite (fs : FS) (path : String) (b : Bytes) : FS :=
  fun q => if q = path then some b else fs q

/-- Write `b` at the end of the file at `path`. -/
def fsAppend (fs : FS) (path : String) (b : Bytes) : FS :=
  fsWrite fs path ((fs path).getD [] ++ b)

/-- Calls that leave the process, in the order they are made. -/
inductive Event where
  | httpHead (url : String)
  | httpGet (url : String) (range : String)
  | osCreate (path : String)
  | osOpen (path : String)
  deriving DecidableEq, Repr

/-- The state the program acts on. -/
structure World where
  fs : FS
  log : List Event

/-- The part of `*http.Response` the program reads. -/
structure Response where
  header : String → List String
  contentLength : Int

/-- What the outside answers: arguments, network, I/O faults, timing. -/
structure Env where
  /-- Value of `flag.Args()` after `flag.Parse()`. -/
  args : List String
  /-- Result of `ioutil.TempDir("", "dlr")`. -/
  tempDir : Except Error String
  /-- Result of `http.Head(url)`. -/
  head : String → Except Error Response
  /-- Error of `http.NewRequest("GET", url, nil)`, if any. -/
  newRequest : String → Option Error
  /-- Result of `client.Do(req)` for a URL and a `Range` header value: the body. -/
  get : String → String → Except Error Bytes
  /-- Error of `os.Create(path)`, if any. -/
  createErr : String → Option Error
  /-- Error of `os.Open(path)` on an existing file, if any. -/
  openErr : String → Option Error
  /-- Failure of `io.Copy` from a source to a file: bytes written before the error. -/
  copyErr : String → String → Option (Nat × Error)
  /-- Error of `Close` on the file at a path, if any. -/
  closeErr : String → Option Error
  /-- Error of `res.Body.Close()` for a `Range` header value, if any. -/
  closeBodyErr : String → Option Error
  /-- Nanoseconds after the start of the fetch phase at which the fetch of the
  segment with the given index reaches its final `select`. -/
  finish : Int → Nat
  /-- Whether the `select` of `Run` takes the `quit` case. -/
  interrupt : Bool

/-- Record a call in the log. -/
def World.emit (w : World) (e : Event) : World := { w with log := w.log ++ [e] }

/-- Call `os.Create(path)`: the file is created or truncated. -/
def osCreate (env : Env) (path : String) (w : World) : World × Option Error :=
  let w := w.emit (.osCreate path)
  match env.createErr path with
  | some e => (w, some e)
  | none => ({ w with fs := fsWrite w.fs path [] }, none)

/-- Call `os.Open(path)`: the content the handle will read. -/
def osOpen (env : Env) (path : String) (w : World) : World × Except Error Bytes :=
  let w := w.emit (.osOpen path)
  match w.fs path with
  | none => (w, .error (.os "no such file or directory"))
  | some content =>
    match env.openErr path with
    | some e => (w, .error e)
    | none => (w, .ok content)

/-- Call `io.Copy(dst, src)` into the open file at `dst`, `src` holding `content`. -/
def ioCopy (env : Env) (src dst : String) (content : Bytes) (w : World) :
    World × Option Error :=
  match env.copyErr src dst with
  | some (n, e) => ({ w with fs := fsAppend w.fs dst (content.take n) }, some e)
  | none => ({ w with fs := fsAppend w.fs dst content }, none)

/-- Model of `filepath.Base` (Unix separators). -/
def filepathBase (path : String) : String :=
  if path = "" then "." else
    let stripped := path.toList.reverse.dropWhile (fun c => c = '/')
    let last := stripped.takeWhile (fun c => c ≠ '/')
    if last = [] then "/" else String.mk last.reverse

/-! ## merge -/

/-- Method `(*process).copy(dstFile)`, `dstFile` being the open file at `dst`. -/
def process.copy (p : process) (env : Env) (dst : String) (w : World) :
    World × Option Error :=
  match osOpen env p.filePath w with
  | (w, .error e) => (w, some e)
  | (w, .ok content) =>
    let (w, err) := ioCopy env p.filePath dst content w
    -- deferred `tmpFile.Close()`
    match env.closeErr p.filePath with
    | some cerr => (w, some cerr)
    | none => (w, err)

/-- The loop `for _, process := range *d.processList` of `merge`. -/
def Downloader.merge.loop (env : Env) (dst : String) : List process → World → World × Option Error
  | [], w => (w, none)
  | p :: rest, w =>
    match p.copy env dst w with
    | (w, some e) => (w, some e)
    | (w, none) => Downloader.merge.loop env dst rest w

/-- Method `(*Downloader).merge`; `none` is the panic of dereferencing a nil
`processList`. -/
def Downloader.merge (d : Downloader) (env : Env) (w : World) : Option (World × Option Error) :=
  match osCreate env d.name w with
  | (w, some e) => some (w, some e)
  | (w, none) =>
    match d.processList with
    | none => none
    | some processList =>
      let (w, err) := Downloader.merge.loop env d.name processList w
      -- deferred `dstFile.Close()`
      match env.closeErr d.name with
      | some cerr => some (w, some cerr)
      | none => some (w, err)

/-! ## download -/

/-- Model of `fmt.Sprintf("bytes=%d-%d", startByte, endByte)`. -/
def rangeHeader (p : process) : String :=
  "bytes=" ++ toString p.startByte ++ "-" ++ toString p.endByte

/-- Method `(*process).download(ctx, url)`; `ctxErr` is `ctx.Err()` at the final
`select` (`none` while the context is not done). -/
def process.download (p : process) (env : Env) (url : String) (ctxErr : Option Error)
    (w : World) : World × Option Error :=
  match env.newRequest url with
  | some _ => (w, none)
  | none =>
    let range := rangeHeader p
    let w := w.emit (.httpGet url range)
    match env.get url range with
    | .error e => (w, some e)
    | .ok body =>
      let (w, err) :=
        match osCreate env p.filePath w with
        | (w, some e) => (w, some e)
        | (w, none) =>
          let (w, err) :=
            match ioCopy env range p.filePath body w with
            | (w, some e) => (w, some e)
            | (w, none) => (w, ctxErr)
          -- deferred `tmpFile.Close()`
          match env.closeErr p.filePath with
          | some cerr => (w, some cerr)
          | none => (w, err)
      -- deferred `res.Body.Close()`
      match env.closeBodyErr range with
      | some cerr => (w, some cerr)
      | none => (w, err)

/-- State of the error group while its tasks finish one after the other. -/
structure GroupState where
  w : World
  /-- Value of `egctx.Err()`. -/
  ctxErr : Option Error
  /-- The error `eg.Wait()` will return. -/
  first : Option Error

/-- One task of the error group reaching its end at time `env.finish p.index`,
the context expiring `deadline` nanoseconds after the start. -/
def Downloader.download.task (env : Env) (url : String) (deadline : Int) (g : GroupState)
    (p : process) : GroupState :=
  let ctxErr :=
    match g.ctxErr with
    | some c => some c
    | none => if deadline ≤ (env.finish p.index : Int) then some .deadlineExceeded else none
  let (w, err) := p.download env url ctxErr g.w
  match err with
  | some e =>
    { w := w
      ctxErr := match ctxErr with | some c => some c | none => some .canceled
      first := match g.first with | some f => some f | none => some e }
  | none => { w := w, ctxErr := ctxErr, first := g.first }

/-- Method `(*Downloader).download`: one task per segment.  The tasks run
concurrently on files of their own; each is taken as one step, in the order in
which the tasks reach their end, so that `eg.Wait()` returns the error of the
first task to fail.  The result `none` is the panic of dereferencing a nil
`processList`. -/
def Downloader.download (d : Downloader) (env : Env) (w : World) : Option (World × Option Error) :=
  let deadline := wrapInt64 (d.timeout * 1000000000)
  match d.processList with
  | none => none
  | some processList =>
    let order := processList.insertionSort
      (fun p q => env.finish p.index ≤ env.finish q.index)
    let g := order.foldl (Downloader.download.task env d.url deadline)
      { w := w, ctxErr := none, first := none }
    some (g.w, g.first)

/-! ## execute and Run -/

/-- The goroutine running `execute`, seen from the channel `done`, once it has
run as far as it can (the process staying alive). -/
structure ExecState where
  d : Downloader
  w : World
  /-- Values whose send on `done` completed, oldest first. -/
  sent : List (Option Error)
  /-- The goroutine is parked for ever on a send. -/
  blocked : Bool
  /-- The deferred `close(done)` ran. -/
  closed : Bool

/-- A send on `done`, a channel of capacity 1 from which `recv` values are ever
received: it completes while fewer than `1 + recv` values have been sent. -/
def chanSend (recv : Nat) (v : Option Error) (s : ExecState) : ExecState :=
  if s.sent.length < 1 + recv then { s with sent := s.sent ++ [v] }
  else { s with blocked := true }

/-- The statement `if err != nil { done <- err }`. -/
def sendIfErr (recv : Nat) (err : Option Error) (s : ExecState) : ExecState :=
  match err with
  | some e => chanSend recv (some e) s
  | none => s

/-- Method `(*Downloader).execute(done)`, run until it returns or parks on a send;
`none` is a run-time panic. -/
def Downloader.execute (d : Downloader) (env : Env) (recv : Nat) (w : World) : Option ExecState :=
  match d.createProcessList with
  | none => none
  | some (d, err) =>
    let s := sendIfErr recv err
      { d := d, w := w, sent := [], blocked := false, closed := false }
    if s.blocked then some s else
    match d.download env s.w with
    | none => none
    | some (w, err) =>
      let s := sendIfErr recv err { s with w := w }
      if s.blocked then some s else
      match d.merge env s.w with
      | none => none
      | some (w, err) =>
        let s := sendIfErr recv err { s with w := w }
        if s.blocked then some s else
        let s := chanSend recv none s
        if s.blocked then some s else
        some { s with closed := true }

/-- Function `parseURL`. -/
def parseURL (env : Env) : Except Error String :=
  match env.args with
  | [] => .error .errTooFewArgument
  | url :: _ => .ok url

/-- Function `newDownloader(url)`; the receiver is the one returned with the error. -/
def newDownloader (env : Env) (url : String) (w : World) :
    World × Downloader × Option Error :=
  let name := filepathBase url
  match env.tempDir with
  | .error e => (w, Downloader.zero, some e)
  | .ok dir =>
    let w := w.emit (.httpHead url)
    match env.head url with
    | .error e => (w, Downloader.zero, some e)
    | .ok res =>
      let ars := res.header "Accept-Ranges"
      if ars.length = 0 then (w, Downloader.zero, some .errAcceptRanges)
      else
        let clg := res.contentLength
        if clg = -1 then (w, Downloader.zero, some .errContentLength)
        else
          (w, { url := url, name := name, tmpDir := dir, contentLength := clg,
                timeout := timeout, division := division,
                processList := none }, none)

/-- What a call of `Run` leaves behind. -/
structure RunResult where
  /-- The returned error. -/
  err : Option Error
  /-- The world when `Run` stops calling out itself (after `newDownloader`). -/
  w : World
  /-- The goroutine started by `go d.execute(done)`, if that line was reached. -/
  worker : Option ExecState
  /-- The directory handed to the deferred `os.RemoveAll`, if it was registered. -/
  cleanup : Option String

/-- Function `Run`.  The `select` takes the `quit` case when `env.interrupt` is
set, and otherwise receives the first value sent on `done`.  The result `none`
is a run-time panic in the goroutine. -/
def Run (env : Env) (w : World) : Option RunResult :=
  match parseURL env with
  | .error e => some { err := some e, w := w, worker := none, cleanup := none }
  | .ok url =>
    match newDownloader env url w with
    | (w, _, some e) => some { err := some e, w := w, worker := none, cleanup := none }
    | (w, d, none) =>
      match d.execute env (if env.interrupt then 0 else 1) w with
      | none => none
      | some s =>
        let err :=
          if env.interrupt then some .errInterrupt
          else
            match s.sent with
            | v :: _ => v
            | [] => none
        some { err := err, w := w, worker := some s, cleanup := some d.tmpDir }

/-! ## Sample inputs -/

/-- A receiver as `newDownloader` builds it, for a given length and division. -/
def sample (contentLength division : Int) : Downloader :=
  { url := "http://h/f.bin", name := "f.bin", tmpDir := "/tmp/dlr1",
    contentLength := contentLength, timeout := timeout,
    division := division, processList := none }

/-- The plan stored by `createProcessList`, `[]` if it panicked. -/
def planOf (d : Downloader) : List process :=
  match d.createProcessList with
  | some (d, _) => d.processList.getD []
  | none => []

/-- The `(startByte, endByte)` pairs of the plan stored by `createProcessList`. -/
def ranges (d : Downloader) : List (Int × Int) :=
  (planOf d).map (fun p => (p.startByte, p.endByte))

/-- The first error of a list of stage results, `none` if every stage succeeded. -/
def firstFailure : List (Option Error) → Option Error
  | [] => none
  | some e :: _ => some e
  | none :: rest => firstFailure rest

/-- Path of the temporary file of the segment with index `i`. -/
def tmpPath (d : Downloader) (i : Int) : String :=
  filepathJoin d.tmpDir (sprintfIndexName i d.name)

/-- A file system without files. -/
def emptyFS : FS := fun _ => none

/-- A world in which a file named like the destination already exists. -/
def world0 : World := { fs := fsWrite emptyFS "f.bin" [7, 7, 7], log := [] }

/-- A HEAD response with `Accept-Ranges: bytes` and a content length of 10. -/
def okResponse : Response :=
  { header := fun k => if k = "Accept-Ranges" then ["bytes"] else []
    contentLength := 10 }

/-- A HEAD response with no `Accept-Ranges` header and no definite length. -/
def bareResponse : Response :=
  { header := fun _ => [], contentLength := -1 }

/-- A HEAD response with `Accept-Ranges: bytes` and no definite length. -/
def unsizedResponse : Response :=
  { header := fun k => if k = "Accept-Ranges" then ["bytes"] else []
    contentLength := -1 }

/-- The bytes a server holding `0, 1, ..., 9` returns for the planned ranges. -/
def sampleBody (range : String) : Bytes :=
  if range = "bytes=0-1" then [0, 1]
  else if range = "bytes=2-3" then [2, 3]
  else if range = "bytes=4-5" then [4, 5]
  else if range = "bytes=6-7" then [6, 7]
  else if range = "bytes=8-10" then [8, 9]
  else []

/-- An environment in which every call succeeds; the fetches finish in the
order 4, 3, 2, 1, 0, all before the deadline. -/
def quietEnv : Env :=
  { args := ["http://h/f.bin"]
    tempDir := .ok "/tmp/dlr1"
    head := fun _ => .ok okResponse
    newRequest := fun _ => none
    get := fun _ range => .ok (sampleBody range)
    createErr := fun _ => none
    openErr := fun _ => none
    copyErr := fun _ _ => none
    closeErr := fun _ => none
    closeBodyErr := fun _ => none
    finish := fun i => (10 - i).toNat
    interrupt := false }

/-- As `quietEnv`, but the fetches finish in the order 0, 1, 2, 3, 4. -/
def forwardEnv : Env := { quietEnv with finish := fun i => i.toNat }

/-- As `quietEnv`, but every ranged GET fails in the transport. -/
def fetchFailsEnv : Env :=
  { quietEnv with get := fun _ _ => .error (.net "connection refused") }

/-- As `quietEnv`, but the HEAD response is `bareResponse`. -/
def bareEnv : Env := { quietEnv with head := fun _ => .ok bareResponse }

/-- As `quietEnv`, but the HEAD response is `unsizedResponse`. -/
def unsizedEnv : Env := { quietEnv with head := fun _ => .ok unsizedResponse }

/-- A world holding the three temporary files of `sample 10 3`. -/
def world3 : World :=
  { fs := fsWrite (fsWrite (fsWrite (fsWrite emptyFS "f.bin" [7, 7, 7])
      "/tmp/dlr1/0_f.bin" [1, 2]) "/tmp/dlr1/1_f.bin" [3]) "/tmp/dlr1/2_f.bin" [4, 5]
    log := [] }

/-! ## Facts about the machine integers and the planning loop -/

theorem wrapInt64_eq_self {x : Int} (h : isInt64 x) : wrapInt64 x = x := by
  unfold wrapInt64
  unfold isInt64 at h
  omega

theorem foldl_append_singleton {α β : Type} (f : α → β) (l : List α) (init : List β) :
    l.foldl (fun acc a => acc ++ [f a]) init = init ++ l.map f := by
  induction l generalizing init with
  | nil => simp
  | cons a l ih => simp [List.foldl_cons, ih]

theorem Downloader.createProcessList.loop_eq_map (d : Downloader) (rangeSize : Int) :
    Downloader.createProcessList.loop d rangeSize =
      (List.range d.division.toNat).map
        (fun (i : Nat) => Downloader.createProcessList.body d rangeSize (i : Int)) := by
  unfold Downloader.createProcessList.loop
  rw [foldl_append_singleton (fun i : Nat => Downloader.createProcessList.body d rangeSize (i : Int))]
  simp

/-- The quotient computed by `createProcessList` is the mathematical one. -/
theorem int64Div_eq (c n : Int) (hc : 0 ≤ c) (hc64 : c < 2 ^ 63) (hn : 1 ≤ n) :
    int64Div c n = some (c / n) := by
  have hq0 : 0 ≤ c / n := Int.ediv_nonneg hc (by omega)
  have hqc : c / n ≤ c := Int.ediv_le_self n hc
  unfold int64Div
  rw [if_neg (by omega), Int.tdiv_eq_ediv hc (by omega)]
  rw [wrapInt64_eq_self ⟨by omega, by omega⟩]

theorem rangeSize_mul_le (c n : Int) (k : Int) (hc : 0 ≤ c) (hn : 1 ≤ n)
    (hk0 : 0 ≤ k) (hk : k ≤ n) : 0 ≤ c / n * k ∧ c / n * k ≤ c := by
  have hq0 : 0 ≤ c / n := Int.ediv_nonneg hc (by omega)
  have h1 : c / n * n ≤ c := Int.ediv_mul_le c (by omega)
  have h2 : c / n * k ≤ c / n * n := mul_le_mul_of_nonneg_left hk hq0
  exact ⟨mul_nonneg hq0 hk0, le_trans h2 h1⟩

/-- The segment built at loop counter `i`, without wrap-around. -/
theorem Downloader.createProcessList.body_eq (d : Downloader) (i : Nat)
    (hc : 0 ≤ d.contentLength) (hc64 : d.contentLength < 2 ^ 63)
    (hn : 1 ≤ d.division) (hn64 : d.division < 2 ^ 63) (hi : (i : Int) < d.division) :
    Downloader.createProcessList.body d (d.contentLength / d.division) (i : Int) =
      { index := (i : Int)
        filePath := filepathJoin d.tmpDir (sprintfIndexName (i : Int) d.name)
        startByte := d.contentLength / d.division * i
        endByte := if (i : Int) = d.division - 1 then d.contentLength
          else d.contentLength / d.division * i + d.contentLength / d.division - 1 } := by
  have hs := rangeSize_mul_le d.contentLength d.division i hc hn (by omega) (by omega)
  have he := rangeSize_mul_le d.contentLength d.division (i + 1) hc hn (by omega) (by omega)
  have hexp : d.contentLength / d.division * ((i : Int) + 1) =
      d.contentLength / d.division * i + d.contentLength / d.division := by ring
  rw [hexp] at he
  unfold Downloader.createProcessList.body
  simp only
  rw [wrapInt64_eq_self (x := d.contentLength / d.division * i) ⟨by omega, by omega⟩,
    wrapInt64_eq_self (x := d.contentLength / d.division * i + d.contentLength / d.division)
      ⟨by omega, by omega⟩,
    wrapInt64_eq_self (x := d.contentLength / d.division * i + d.contentLength / d.division - 1)
      ⟨by omega, by omega⟩,
    wrapInt64_eq_self (x := d.division - 1) ⟨by omega, by omega⟩]

/-- The plan `createProcessList` stores, for a non-zero division. -/
theorem createProcessList_shape (d : Downloader) (hn : d.division ≠ 0) :
    ∃ rangeSize, int64Div d.contentLength d.division = some rangeSize ∧
      d.createProcessList =
        some ({ d with processList := some ((List.range d.division.toNat).map
          (fun (i : Nat) => Downloader.createProcessList.body d rangeSize (i : Int))) }, none) := by
  refine ⟨wrapInt64 (Int.tdiv d.contentLength d.division), ?_, ?_⟩
  · unfold int64Div
    rw [if_neg hn]
  · unfold Downloader.createProcessList int64Div
    rw [if_neg hn]
    simp only [Downloader.createProcessList.loop_eq_map]

/-- The plan `createProcessList` stores, with the mathematical range size. -/
theorem createProcessList_eq (d : Downloader)
    (hc : 0 ≤ d.contentLength) (hc64 : d.contentLength < 2 ^ 63) (hn : 1 ≤ d.division) :
    d.createProcessList =
      some ({ d with processList := some ((List.range d.division.toNat).map
        (fun (i : Nat) => Downloader.createProcessList.body d (d.contentLength / d.division) (i : Int))) },
        none) := by
  unfold Downloader.createProcessList
  rw [int64Div_eq _ _ hc hc64 hn]
  simp only [Downloader.createProcessList.loop_eq_map]

theorem getElem?_map_range {β : Type} (f : Nat → β) (n i : Nat) (p : β)
    (h : ((List.range n).map f)[i]? = some p) : i < n ∧ p = f i := by
  rw [List.getElem?_map] at h
  by_cases hi : i < n
  · rw [List.getElem?_range hi] at h
    simp at h
    exact ⟨hi, h.symm⟩
  · rw [List.getElem?_eq_none (by simpa using hi)] at h
    simp at h

/-- The first segment of the plan starts at byte 0 and the last one ends at
byte `contentLength`. -/
theorem createProcessList_first_last (d : Downloader)
    (hc : 0 ≤ d.contentLength) (hc64 : d.contentLength < 2 ^ 63)
    (hn : 1 ≤ d.division) (hn64 : d.division < 2 ^ 63) :
    ∃ ps, d.createProcessList = some ({ d with processList := some ps }, none) ∧
      (ps.head?).map (fun p => p.startByte) = some 0 ∧
      (ps.getLast?).map (fun p => p.endByte) = some d.contentLength := by
  refine ⟨_, createProcessList_eq d hc hc64 hn, ?_, ?_⟩
  · obtain ⟨m, hm⟩ : ∃ m, d.division.toNat = m + 1 := ⟨d.division.toNat - 1, by omega⟩
    rw [hm, List.range_succ_eq_map]
    simp only [List.map_cons, List.head?_cons, Option.map_some', Option.some.injEq]
    rw [Downloader.createProcessList.body_eq d 0 hc hc64 hn hn64 (by omega)]
    simp
  · obtain ⟨m, hm⟩ : ∃ m, d.division.toNat = m + 1 := ⟨d.division.toNat - 1, by omega⟩
    rw [hm, List.range_succ, List.map_append]
    simp only [List.map_cons, List.map_nil, List.getLast?_concat, Option.map_some',
      Option.some.injEq]
    rw [Downloader.createProcessList.body_eq d m hc hc64 hn hn64 (by omega)]
    simp only
    rw [if_pos (by omega)]

/-! ## The plan: claims C1 to C5 -/

/-- C1 (the code departs from the claim): for `contentLength = 10` and
`division = 3` the plan is `[0,2], [3,5], [6,10]`: the first segment starts at
byte 0, but the last segment ends at byte `contentLength = 10`, one past
`contentLength - 1 = 9`. -/
theorem createProcessList_last_endByte_is_contentLength :
    ranges (sample 10 3) = [(0, 2), (3, 5), (6, 10)] ∧
      ((planOf (sample 10 3)).head?).map (fun p => p.startByte) = some 0 ∧
      ((planOf (sample 10 3)).getLast?).map (fun p => p.endByte) = some 10 ∧
      ((planOf (sample 10 3)).getLast?).map (fun p => p.endByte)
        ≠ some ((sample 10 3).contentLength - 1) := by
  decide

/-- C2: for a division of at least 1 (and any content length, so also every
content length of at least 0), `createProcessList` returns a nil error and
stores a plan of exactly `division` segments, the segment at position `i`
carrying index `i`. -/
theorem createProcessList_count_and_indices (d : Downloader) (hn : 1 ≤ d.division) :
    ∃ ps, d.createProcessList = some ({ d with processList := some ps }, none) ∧
      (ps.length : Int) = d.division ∧
      ∀ (i : Nat) (p : process), ps[i]? = some p → p.index = (i : Int) := by
  obtain ⟨rangeSize, _, h⟩ := createProcessList_shape d (by omega)
  refine ⟨_, h, ?_, ?_⟩
  · simp only [List.length_map, List.length_range]
    omega
  · intro i p h
    obtain ⟨_, rfl⟩ := getElem?_map_range _ _ _ _ h
    rfl

/-- The statement of C2 at `contentLength = 10`, `division = 3`. -/
theorem createProcessList_count_and_indices_witness :
    (1 : Int) ≤ (sample 10 3).division ∧
    ∃ ps, (sample 10 3).createProcessList =
        some ({ sample 10 3 with processList := some ps }, none) ∧
      (ps.length : Int) = (sample 10 3).division ∧
      ∀ (i : Nat) (p : process), ps[i]? = some p → p.index = (i : Int) :=
  ⟨by decide, createProcessList_count_and_indices (sample 10 3) (by decide)⟩

/-- C3: for a content length of at least 0 and a division of at least 1 (both
in the range of their Go types), consecutive segments of the plan are
contiguous: `segment[i].endByte + 1 = segment[i+1].startByte`. -/
theorem createProcessList_contiguous (d : Downloader)
    (hc : 0 ≤ d.contentLength) (hc64 : d.contentLength < 2 ^ 63)
    (hn : 1 ≤ d.division) (hn64 : d.division < 2 ^ 63) :
    ∃ ps, d.createProcessList = some ({ d with processList := some ps }, none) ∧
      (ps.length : Int) = d.division ∧
      ∀ (i : Nat) (p q : process), ps[i]? = some p → ps[i + 1]? = some q →
        p.endByte + 1 = q.startByte := by
  refine ⟨_, createProcessList_eq d hc hc64 hn, ?_, ?_⟩
  · simp only [List.length_map, List.length_range]
    omega
  · intro i p q hp hq
    obtain ⟨_, rfl⟩ := getElem?_map_range _ _ _ _ hp
    obtain ⟨hi, rfl⟩ := getElem?_map_range _ _ _ _ hq
    have hi1 : ((i + 1 : Nat) : Int) < d.division := by omega
    rw [Downloader.createProcessList.body_eq d i hc hc64 hn hn64 (by omega),
      Downloader.createProcessList.body_eq d (i + 1) hc hc64 hn hn64 hi1]
    simp only
    rw [if_neg (by omega)]
    push_cast
    ring

/-- The statement of C3 at `contentLength = 10`, `division = 3`. -/
theorem createProcessList_contiguous_witness :
    ((0 : Int) ≤ (sample 10 3).contentLength ∧ (sample 10 3).contentLength < 2 ^ 63 ∧
      1 ≤ (sample 10 3).division ∧ (sample 10 3).division < 2 ^ 63) ∧
    ∃ ps, (sample 10 3).createProcessList =
        some ({ sample 10 3 with processList := some ps }, none) ∧
      (ps.length : Int) = (sample 10 3).division ∧
      ∀ (i : Nat) (p q : process), ps[i]? = some p → ps[i + 1]? = some q →
        p.endByte + 1 = q.startByte :=
  ⟨by decide,
    createProcessList_contiguous (sample 10 3) (by decide) (by decide) (by decide) (by decide)⟩

/-- C4, as stated, fails: for `contentLength = 3` and `division = 5` the range
size is 0 and the plan is `[0,-1]` four times, then `[0,3]`, so not every
segment has `startByte ≤ endByte`. -/
theorem createProcessList_start_le_end_fails :
    (0 : Int) ≤ (sample 3 5).contentLength ∧ 1 ≤ (sample 3 5).division ∧
      ranges (sample 3 5) = [(0, -1), (0, -1), (0, -1), (0, -1), (0, 3)] ∧
      ¬ ∀ p ∈ planOf (sample 3 5), p.startByte ≤ p.endByte := by
  decide

/-- C4, amended: for a content length of at least 0 and a division of at least
1, when the content length is at least the division (so that the range size is
at least 1), every segment of the plan has `startByte ≤ endByte`. -/
theorem createProcessList_start_le_end (d : Downloader)
    (hc : 0 ≤ d.contentLength) (hc64 : d.contentLength < 2 ^ 63)
    (hn : 1 ≤ d.division) (hn64 : d.division < 2 ^ 63)
    (hsize : d.division ≤ d.contentLength) :
    ∃ ps, d.createProcessList = some ({ d with processList := some ps }, none) ∧
      (ps.length : Int) = d.division ∧
      ∀ p ∈ ps, p.startByte ≤ p.endByte := by
  refine ⟨_, createProcessList_eq d hc hc64 hn, ?_, ?_⟩
  · simp only [List.length_map, List.length_range]
    omega
  · intro p hp
    obtain ⟨i, hi, rfl⟩ := List.mem_map.mp hp
    have hi' : (i : Int) < d.division := by
      have := List.mem_range.mp hi
      omega
    rw [Downloader.createProcessList.body_eq d i hc hc64 hn hn64 hi']
    simp only
    have hs := rangeSize_mul_le d.contentLength d.division i hc hn (by omega) (by omega)
    by_cases hlast : (i : Int) = d.division - 1
    · rw [if_pos hlast]
      exact hs.2
    · rw [if_neg hlast]
      have hq : 1 ≤ d.contentLength / d.division :=
        (Int.le_ediv_iff_mul_le (by omega)).mpr (by omega)
      omega

/-- The amended statement of C4 at `contentLength = 10`, `division = 3`. -/
theorem createProcessList_start_le_end_witness :
    ((0 : Int) ≤ (sample 10 3).contentLength ∧ (sample 10 3).contentLength < 2 ^ 63 ∧
      1 ≤ (sample 10 3).division ∧ (sample 10 3).division < 2 ^ 63 ∧
      (sample 10 3).division ≤ (sample 10 3).contentLength) ∧
    ∃ ps, (sample 10 3).createProcessList =
        some ({ sample 10 3 with processList := some ps }, none) ∧
      (ps.length : Int) = (sample 10 3).division ∧
      ∀ p ∈ ps, p.startByte ≤ p.endByte :=
  ⟨by decide,
    createProcessList_start_le_end (sample 10 3) (by decide) (by decide) (by decide)
      (by decide) (by decide)⟩

/-- C5 (the code departs from the claim): for `contentLength = 1000000` and
`division = 5` the plan is `[0,199999]`, `[200000,399999]`, `[400000,599999]`,
`[600000,799999]`, `[800000,1000000]`: the last pair ends at 1000000, not at
999999. -/
theorem createProcessList_million_by_five :
    (sample 1000000 division).createProcessList.isSome = true ∧
      ranges (sample 1000000 division) =
        [(0, 199999), (200000, 399999), (400000, 599999), (600000, 799999),
          (800000, 1000000)] ∧
      ranges (sample 1000000 division) ≠
        [(0, 199999), (200000, 399999), (400000, 599999), (600000, 799999),
          (800000, 999999)] := by
  decide


/-! ## The probe: claims C7 and C8 -/

/-- C7: when the HEAD response carries no `Accept-Ranges` header, whatever its
content length, `newDownloader` fails with `errAcceptRanges`, and `Run` returns
that error: `execute` is never started, so no process list is built (the
returned receiver has a nil one) and no ranged GET is made (the only call
recorded is the HEAD request; the file system is untouched). -/
theorem Run_without_accept_ranges (env : Env) (w : World) (url dir : String)
    (res : Response) (hargs : parseURL env = .ok url) (hdir : env.tempDir = .ok dir)
    (hhead : env.head url = .ok res) (hars : (res.header "Accept-Ranges").length = 0) :
    (newDownloader env url w).2.2 = some .errAcceptRanges ∧
      (newDownloader env url w).2.1.processList = none ∧
      ∃ r, Run env w = some r ∧ r.err = some .errAcceptRanges ∧ r.worker = none ∧
        r.w.fs = w.fs ∧ r.w.log = w.log ++ [.httpHead url] := by
  have hnew : newDownloader env url w =
      (w.emit (.httpHead url), Downloader.zero, some .errAcceptRanges) := by
    unfold newDownloader
    simp only [hdir, hhead, hars, if_true]
  refine ⟨by rw [hnew], by rw [hnew]; rfl, ?_⟩
  refine ⟨{ err := some .errAcceptRanges, w := w.emit (.httpHead url), worker := none,
            cleanup := none }, ?_, rfl, rfl, rfl, rfl⟩
  unfold Run
  simp only [hargs, hnew]

/-- The statement of C7 for a HEAD response without headers. -/
theorem Run_without_accept_ranges_witness :
    (parseURL bareEnv = .ok "http://h/f.bin" ∧ bareEnv.tempDir = .ok "/tmp/dlr1" ∧
      bareEnv.head "http://h/f.bin" = .ok bareResponse ∧
      (bareResponse.header "Accept-Ranges").length = 0) ∧
    ((newDownloader bareEnv "http://h/f.bin" world0).2.2 = some .errAcceptRanges ∧
      (newDownloader bareEnv "http://h/f.bin" world0).2.1.processList = none ∧
      ∃ r, Run bareEnv world0 = some r ∧ r.err = some .errAcceptRanges ∧ r.worker = none ∧
        r.w.fs = world0.fs ∧ r.w.log = world0.log ++ [.httpHead "http://h/f.bin"]) :=
  ⟨⟨rfl, rfl, rfl, by decide⟩,
    Run_without_accept_ranges bareEnv world0 "http://h/f.bin" "/tmp/dlr1" bareResponse
      rfl rfl rfl (by decide)⟩

/-- C8, as stated, fails: a HEAD response with `ContentLength == -1` and no
`Accept-Ranges` header makes `newDownloader` fail with `errAcceptRanges`, not
with `errContentLength`. -/
theorem newDownloader_unknown_length_without_ranges :
    bareEnv.head "http://h/f.bin" = .ok bareResponse ∧
      bareResponse.contentLength = -1 ∧
      (newDownloader bareEnv "http://h/f.bin" world0).2.2 = some .errAcceptRanges ∧
      (newDownloader bareEnv "http://h/f.bin" world0).2.2 ≠ some .errContentLength :=
  ⟨rfl, by decide, by decide, by decide⟩

/-- C8, amended: when the HEAD response carries an `Accept-Ranges` header and
reports no definite content length (`ContentLength == -1`), `newDownloader`
fails with `errContentLength`. -/
theorem newDownloader_unknown_length (env : Env) (w : World) (url dir : String)
    (res : Response) (hdir : env.tempDir = .ok dir) (hhead : env.head url = .ok res)
    (hars : (res.header "Accept-Ranges").length ≠ 0) (hclg : res.contentLength = -1) :
    (newDownloader env url w).2.2 = some .errContentLength := by
  unfold newDownloader
  simp only [hdir, hhead, if_neg hars, hclg, if_true]

/-- The amended statement of C8 for a HEAD response with `Accept-Ranges: bytes`
and a content length of -1. -/
theorem newDownloader_unknown_length_witness :
    (unsizedEnv.tempDir = .ok "/tmp/dlr1" ∧
      unsizedEnv.head "http://h/f.bin" = .ok unsizedResponse ∧
      (unsizedResponse.header "Accept-Ranges").length ≠ 0 ∧
      unsizedResponse.contentLength = -1) ∧
    (newDownloader unsizedEnv "http://h/f.bin" world0).2.2 = some .errContentLength :=
  ⟨⟨rfl, rfl, by decide, by decide⟩,
    newDownloader_unknown_length unsizedEnv world0 "http://h/f.bin" "/tmp/dlr1"
      unsizedResponse rfl rfl (by decide) (by decide)⟩

/-! ## The stages of a run: claims C9 and C10 -/

theorem newDownloader_division (env : Env) (w : World) (url : String)
    (h : (newDownloader env url w).2.2 = none) :
    (newDownloader env url w).2.1.division = division := by
  unfold newDownloader at h ⊢
  cases hd : env.tempDir with
  | error e => simp [hd] at h
  | ok dir =>
    simp only [hd] at h ⊢
    cases hh : env.head url with
    | error e => simp [hh] at h
    | ok res =>
      simp only [hh] at h ⊢
      by_cases hars : (res.header "Accept-Ranges").length = 0
      · simp [hars] at h
      · simp only [if_neg hars] at h ⊢
        by_cases hclg : res.contentLength = -1
        · simp [hclg] at h
        · simp only [if_neg hclg]

theorem download_returns (d : Downloader) (env : Env) (w : World) (ps : List process)
    (h : d.processList = some ps) : ∃ w2 e2, d.download env w = some (w2, e2) := by
  unfold Downloader.download
  rw [h]
  exact ⟨_, _, rfl⟩

theorem merge_returns (d : Downloader) (env : Env) (w : World) (ps : List process)
    (h : d.processList = some ps) : ∃ w3 e3, d.merge env w = some (w3, e3) := by
  unfold Downloader.merge
  rw [h]
  rcases osCreate env d.name w with ⟨w1, _ | e⟩
  · simp only
    rcases Downloader.merge.loop env d.name ps w1 with ⟨w2, err⟩
    simp only
    cases env.closeErr d.name with
    | none => exact ⟨_, _, rfl⟩
    | some cerr => exact ⟨_, _, rfl⟩
  · exact ⟨_, _, rfl⟩

/-- What `execute` sends first when `Run` receives one value from `done`. -/
theorem execute_first_send (d d1 : Downloader) (env : Env) (w w2 w3 : World)
    (e1 e2 e3 : Option Error) (h1 : d.createProcessList = some (d1, e1))
    (h2 : d1.download env w = some (w2, e2)) (h3 : d1.merge env w2 = some (w3, e3)) :
    ∃ s rest, d.execute env 1 w = some s ∧ s.w = w3 ∧
      s.sent = firstFailure [e1, e2, e3] :: rest := by
  unfold Downloader.execute
  rw [h1]
  cases e1 <;> cases e2 <;> cases e3 <;>
    simp [sendIfErr, chanSend, h2, h3, firstFailure]

theorem firstFailure_eq_none (e1 e2 e3 : Option Error) :
    firstFailure [e1, e2, e3] = none ↔ e1 = none ∧ e2 = none ∧ e3 = none := by
  cases e1 <;> cases e2 <;> cases e3 <;> simp [firstFailure]

/-- C10: when the probe succeeded and no interrupt is taken, the three stages
`createProcessList`, `download` and `merge` all return, and `Run` returns the
first value `execute` sent on `done`, which is the error of the earliest failing
stage in that order, later errors being dropped; it is nil exactly when all
three stages returned nil. -/
theorem Run_returns_first_failure (env : Env) (w : World) (url : String)
    (hargs : parseURL env = .ok url) (hprobe : (newDownloader env url w).2.2 = none)
    (hquiet : env.interrupt = false) :
    ∃ d1 e1 w2 e2 w3 e3 r s rest,
      (newDownloader env url w).2.1.createProcessList = some (d1, e1) ∧
      d1.download env (newDownloader env url w).1 = some (w2, e2) ∧
      d1.merge env w2 = some (w3, e3) ∧
      Run env w = some r ∧
      r.err = firstFailure [e1, e2, e3] ∧
      (r.err = none ↔ e1 = none ∧ e2 = none ∧ e3 = none) ∧
      r.worker = some s ∧ s.sent = r.err :: rest := by
  have hdiv := newDownloader_division env w url hprobe
  rcases hnew : newDownloader env url w with ⟨w1, d, e⟩
  rw [hnew] at hprobe hdiv
  simp only at hprobe hdiv
  subst hprobe
  obtain ⟨rangeSize, _, h1⟩ := createProcessList_shape d (by rw [hdiv]; decide)
  generalize hps : (List.range d.division.toNat).map
    (fun (i : Nat) => Downloader.createProcessList.body d rangeSize (i : Int)) = ps at h1
  obtain ⟨w2, e2, h2⟩ := download_returns { d with processList := some ps } env w1 ps rfl
  obtain ⟨w3, e3, h3⟩ := merge_returns { d with processList := some ps } env w2 ps rfl
  obtain ⟨s, rest, hs, _, hsent⟩ := execute_first_send d _ env w1 w2 w3 none e2 e3 h1 h2 h3
  refine ⟨{ d with processList := some ps }, none, w2, e2, w3, e3,
    { err := firstFailure [none, e2, e3], w := w1, worker := some s,
      cleanup := some d.tmpDir }, s, rest, h1, h2, h3, ?_, rfl,
    firstFailure_eq_none none e2 e3, rfl, hsent⟩
  unfold Run
  simp only [hargs, hnew, hquiet, Bool.false_eq_true, if_false, hs, hsent]

/-- The statement of C10 for a run in which every call succeeds. -/
theorem Run_returns_first_failure_witness :
    (parseURL quietEnv = .ok "http://h/f.bin" ∧
      (newDownloader quietEnv "http://h/f.bin" world0).2.2 = none ∧
      quietEnv.interrupt = false) ∧
    ∃ d1 e1 w2 e2 w3 e3 r s rest,
      (newDownloader quietEnv "http://h/f.bin" world0).2.1.createProcessList
        = some (d1, e1) ∧
      d1.download quietEnv (newDownloader quietEnv "http://h/f.bin" world0).1
        = some (w2, e2) ∧
      d1.merge quietEnv w2 = some (w3, e3) ∧
      Run quietEnv world0 = some r ∧
      r.err = firstFailure [e1, e2, e3] ∧
      (r.err = none ↔ e1 = none ∧ e2 = none ∧ e3 = none) ∧
      r.worker = some s ∧ s.sent = r.err :: rest :=
  ⟨⟨rfl, by decide, rfl⟩,
    Run_returns_first_failure quietEnv world0 "http://h/f.bin" rfl (by decide) rfl⟩

/-- C9 (the code departs from the claim): with every ranged GET failing, the
download phase returns an error and `Run` reports it, but `execute` goes on to
call `merge`: `os.Create` is called on the destination `f.bin`, and the file of
that name, which held three bytes, is truncated to zero length. -/
theorem execute_merges_after_failed_download :
    (((newDownloader fetchFailsEnv "http://h/f.bin" world0).2.1.createProcessList).bind
        (fun r => r.1.download fetchFailsEnv
          (newDownloader fetchFailsEnv "http://h/f.bin" world0).1)).map (fun r => r.2)
      = some (some (.net "connection refused")) ∧
    (Run fetchFailsEnv world0).map (fun r => r.err)
      = some (some (.net "connection refused")) ∧
    world0.fs "f.bin" = some [7, 7, 7] ∧
    ((Run fetchFailsEnv world0).bind (fun r => r.worker)).map
        (fun s => decide (Event.osCreate "f.bin" ∈ s.w.log)) = some true ∧
    ((Run fetchFailsEnv world0).bind (fun r => r.worker)).map (fun s => s.w.fs "f.bin")
      = some (some []) := by
  decide

/-! ## The merge: claim C6 -/

theorem fsAppend_same (fs : FS) (dst : String) (b : Bytes) :
    fsAppend fs dst b dst = some ((fs dst).getD [] ++ b) := by
  simp [fsAppend, fsWrite]

theorem fsAppend_other (fs : FS) (dst q : String) (b : Bytes) (h : q ≠ dst) :
    fsAppend fs dst b q = fs q := by
  simp [fsAppend, fsWrite, h]

/-- A copy that returns nil read the whole source file and wrote it at the end
of the destination. -/
theorem copy_ok (p : process) (env : Env) (dst : String) (w w1 : World)
    (h : p.copy env dst w = (w1, none)) :
    ∃ c, w.fs p.filePath = some c ∧ w1.fs = fsAppend w.fs dst c := by
  unfold process.copy osOpen ioCopy at h
  simp only [World.emit] at h
  cases hfs : w.fs p.filePath with
  | none => simp [hfs] at h
  | some c =>
    refine ⟨c, rfl, ?_⟩
    simp only [hfs] at h
    cases hop : env.openErr p.filePath with
    | some e => simp [hop] at h
    | none =>
      simp only [hop] at h
      cases hcp : env.copyErr p.filePath dst with
      | some ne =>
        simp only [hcp] at h
        cases hcl : env.closeErr p.filePath <;> simp [hcl] at h
      | none =>
        simp only [hcp] at h
        cases hcl : env.closeErr p.filePath with
        | some e => simp [hcl] at h
        | none =>
          simp only [hcl, Prod.mk.injEq, and_true] at h
          rw [← h]

/-- A merge loop that returns nil found every source file and wrote their
contents, in list order, at the end of the destination. -/
theorem merge_loop_ok (env : Env) (dst : String) :
    ∀ (ps : List process) (w w1 : World) (acc : Bytes),
      (∀ p ∈ ps, p.filePath ≠ dst) → w.fs dst = some acc →
      Downloader.merge.loop env dst ps w = (w1, none) →
      (∀ p ∈ ps, (w.fs p.filePath).isSome = true) ∧
        w1.fs dst = some (acc ++ (ps.map (fun p => (w.fs p.filePath).getD [])).flatten) ∧
        ∀ q, q ≠ dst → w1.fs q = w.fs q := by
  intro ps
  induction ps with
  | nil =>
    intro w w1 acc _ hdst h
    simp only [Downloader.merge.loop, Prod.mk.injEq, and_true] at h
    subst h
    simp [hdst]
  | cons p rest ih =>
    intro w w1 acc hne hdst h
    unfold Downloader.merge.loop at h
    rcases hcopy : p.copy env dst w with ⟨w2, e⟩
    rw [hcopy] at h
    cases e with
    | some e => simp at h
    | none =>
      simp only at h
      obtain ⟨c, hc, hw2⟩ := copy_ok p env dst w w2 hcopy
      have hdst2 : w2.fs dst = some (acc ++ c) := by
        rw [hw2, fsAppend_same, hdst]
        rfl
      have hother : ∀ q, q ≠ dst → w2.fs q = w.fs q := by
        intro q hq
        rw [hw2, fsAppend_other _ _ _ _ hq]
      obtain ⟨hex, hcat, hframe⟩ := ih w2 w1 (acc ++ c)
        (fun q hq => hne q (List.mem_cons_of_mem _ hq)) hdst2 h
      have hrest : ∀ q ∈ rest, w2.fs q.filePath = w.fs q.filePath :=
        fun q hq => hother _ (hne q (List.mem_cons_of_mem _ hq))
      refine ⟨?_, ?_, ?_⟩
      · intro q hq
        rcases List.mem_cons.mp hq with rfl | hq
        · simp [hc]
        · rw [← hrest q hq]
          exact hex q hq
      · rw [hcat, List.map_cons, List.flatten_cons, hc]
        have hmap : rest.map (fun p => (w2.fs p.filePath).getD []) =
            rest.map (fun p => (w.fs p.filePath).getD []) :=
          List.map_congr_left (fun q hq => by rw [hrest q hq])
        rw [hmap]
        simp
      · intro q hq
        rw [hframe q hq, hother q hq]

/-- A merge that returns nil leaves in the destination exactly the contents of
the source files, in list order. -/
theorem merge_ok (d : Downloader) (env : Env) (w w1 : World) (ps : List process)
    (hps : d.processList = some ps) (hne : ∀ p ∈ ps, p.filePath ≠ d.name)
    (h : d.merge env w = some (w1, none)) :
    (∀ p ∈ ps, (w.fs p.filePath).isSome = true) ∧
      w1.fs d.name = some ((ps.map (fun p => (w.fs p.filePath).getD [])).flatten) := by
  unfold Downloader.merge osCreate at h
  simp only [World.emit, hps] at h
  cases hcr : env.createErr d.name with
  | some e => simp [hcr] at h
  | none =>
    simp only [hcr] at h
    rcases hloop : Downloader.merge.loop env d.name ps
      { fs := fsWrite w.fs d.name [], log := w.log ++ [Event.osCreate d.name] }
      with ⟨w2, e⟩
    rw [hloop] at h
    simp only at h
    cases hcl : env.closeErr d.name with
    | some e => simp [hcl] at h
    | none =>
      simp only [hcl, Option.some.injEq, Prod.mk.injEq] at h
      obtain ⟨rfl, rfl⟩ := h
      obtain ⟨hex, hcat, _⟩ := merge_loop_ok env d.name ps _ _ [] hne
        (by simp [fsWrite]) hloop
      have hsame : ∀ p ∈ ps, fsWrite w.fs d.name [] p.filePath = w.fs p.filePath := by
        intro p hp
        simp [fsWrite, hne p hp]
      refine ⟨fun p hp => ?_, ?_⟩
      · rw [← hsame p hp]
        exact hex p hp
      · rw [hcat, List.nil_append]
        congr 2
        exact List.map_congr_left (fun p hp => by simp only [hsame p hp])

/-- No temporary file has the path of the destination. -/
theorem tmpPath_ne_name (d : Downloader) (i : Int) : tmpPath d i ≠ d.name := by
  intro h
  have hlen := congrArg String.length h
  simp only [tmpPath, filepathJoin, sprintfIndexName, String.length_append] at hlen
  have : ("/" : String).length = 1 := rfl
  omega

/-- C6: for a plan built by `createProcessList` and any state of the file system
left by the fetches (whatever the order in which they completed), a merge that
returns nil found the temporary file of every segment, and the destination file
then holds exactly the contents of the temporary files of the segments with
index `0, 1, ..., division - 1`, concatenated in that order, whatever it held
before. -/
theorem merge_concatenates_in_index_order (d d1 : Downloader) (env : Env) (w : World)
    (hplan : d.createProcessList = some (d1, none))
    (hmerge : (d1.merge env w).map (fun r => r.2) = some none) :
    (∀ (i : Nat) (p : process), (d1.processList.getD [])[i]? = some p →
        p.index = (i : Int) ∧ p.filePath = tmpPath d (i : Int)) ∧
      (∀ i : Nat, (i : Int) < d.division →
        (w.fs (tmpPath d (i : Int))).isSome = true) ∧
      (d1.merge env w).map (fun r => r.1.fs d.name) =
        some (some (((List.range d.division.toNat).map
          (fun (i : Nat) => (w.fs (tmpPath d (i : Int))).getD [])).flatten)) := by
  have hn : d.division ≠ 0 := by
    intro h0
    simp [Downloader.createProcessList, int64Div, h0] at hplan
  obtain ⟨rangeSize, _, hshape⟩ := createProcessList_shape d hn
  rw [hshape] at hplan
  simp only [Option.some.injEq, Prod.mk.injEq, and_true] at hplan
  subst hplan
  simp only [Option.getD_some]
  rcases hm : Downloader.merge
    { d with processList := some ((List.range d.division.toNat).map
        (fun (i : Nat) => Downloader.createProcessList.body d rangeSize (i : Int))) }
    env w with _ | ⟨w1, e⟩
  · rw [hm] at hmerge
    simp at hmerge
  · rw [hm] at hmerge
    simp only [Option.map_some', Option.some.injEq] at hmerge
    subst hmerge
    obtain ⟨hex, hcat⟩ := merge_ok _ env w w1 _ rfl
      (by
        intro p hp
        obtain ⟨i, _, rfl⟩ := List.mem_map.mp hp
        exact tmpPath_ne_name d i) hm
    refine ⟨?_, ?_, ?_⟩
    · intro i p hp
      obtain ⟨_, rfl⟩ := getElem?_map_range _ _ _ _ hp
      exact ⟨rfl, rfl⟩
    · intro i hi
      have := hex (Downloader.createProcessList.body d rangeSize (i : Int))
        (List.mem_map.mpr ⟨i, List.mem_range.mpr (by omega), rfl⟩)
      exact this
    · simp only [Option.map_some']
      rw [hcat, List.map_map]
      rfl

/-- The statement of C6 for three temporary files holding `1 2`, `3` and `4 5`. -/
theorem merge_concatenates_in_index_order_witness :
    ((sample 10 3).createProcessList =
        some ({ sample 10 3 with processList := some (planOf (sample 10 3)) }, none) ∧
      (Downloader.merge { sample 10 3 with processList := some (planOf (sample 10 3)) }
        quietEnv world3).map (fun r => r.2) = some none) ∧
    ((∀ (i : Nat) (p : process),
        ((some (planOf (sample 10 3))).getD [])[i]? = some p →
          p.index = (i : Int) ∧ p.filePath = tmpPath (sample 10 3) (i : Int)) ∧
      (∀ i : Nat, (i : Int) < (sample 10 3).division →
        (world3.fs (tmpPath (sample 10 3) (i : Int))).isSome = true) ∧
      (Downloader.merge { sample 10 3 with processList := some (planOf (sample 10 3)) }
          quietEnv world3).map (fun r => r.1.fs (sample 10 3).name) =
        some (some (((List.range (sample 10 3).division.toNat).map
          (fun (i : Nat) => (world3.fs (tmpPath (sample 10 3) (i : Int))).getD [])).flatten))) :=
  ⟨⟨by decide, by decide⟩,
    merge_concatenates_in_index_order (sample 10 3)
      { sample 10 3 with processList := some (planOf (sample 10 3)) } quietEnv world3
      (by decide) (by decide)⟩

/-- The merged content of the sample: the three temporary files in index order,
the previous content of the destination gone. -/
theorem merge_sample_content :
    ((sample 10 3).createProcessList.bind (fun r => r.1.merge quietEnv world3)).map
      (fun r => (r.1.fs "f.bin", r.2)) = some (some [1, 2, 3, 4, 5], none) := by
  decide

/-- Two complete runs that differ only in the order in which the fetches finish
(4, 3, 2, 1, 0 against 0, 1, 2, 3, 4) return nil and leave the same destination
file: the ten bytes in index order. -/
theorem Run_same_content_for_both_orders :
    (Run quietEnv world0).map (fun r => r.err) = some none ∧
      (Run forwardEnv world0).map (fun r => r.err) = some none ∧
      ((Run quietEnv world0).bind (fun r => r.worker)).map (fun s => s.w.fs "f.bin")
        = some (some [0, 1, 2, 3, 4, 5, 6, 7, 8, 9]) ∧
      ((Run forwardEnv world0).bind (fun r => r.worker)).map (fun s => s.w.fs "f.bin")
        = some (some [0, 1, 2, 3, 4, 5, 6, 7, 8, 9]) := by
  decide

end Bunkatsu
